import Mathlib

/-!
Shallow embedding of the concurrent inference dispatch engine of
`bfcl_eval/_llm_response_generation.py`: error classification, the retry
loop of `multi_threaded_inference`, the dynamic retry-delay schedule,
`collect_test_cases`, the result-processing loop of `generate_results`
(internal-field stripping, content-filter counting, abort-on-write-failure),
and one step of the `stall_watchdog` body.
-/

namespace Dispatch

/-- Python substring membership on char lists: `leadMatch xs ys` holds when
`xs` is an initial segment of `ys`. -/
def leadMatch : List Char → List Char → Bool
  | [], _ => true
  | _ :: _, [] => false
  | a :: as, b :: bs => a == b && leadMatch as bs

/-- Whether `sub` occurs contiguously inside the second list. -/
def hasSub (sub : List Char) : List Char → Bool
  | [] => leadMatch sub []
  | b :: bs => leadMatch sub (b :: bs) || hasSub sub bs

/-- The Python substring test `sub in hay` on strings. -/
def strContains (hay sub : String) : Bool :=
  hasSub sub.toList hay.toList

/-- ASCII lowercasing of a string, character by character, modelling the
Python `str.lower()` calls of the classifier (the pattern strings being
matched are all ASCII). -/
def strLower (s : String) : String :=
  String.mk (s.toList.map Char.toLower)

/-- An exception raised by `handler.inference`: its textual message
(`str(e)`) and, when the exception object has one, a numeric
`status_code` attribute. -/
structure InferError where
  message : String
  statusCode : Option Nat
  deriving DecidableEq, Repr

/-- Line 27 of the source: a constant that the retry loop never reads. -/
def RETRY_LIMIT : Nat := 3

/-- Line 29 of the source: the flat default retry delay in seconds. -/
def RETRY_DELAY : Nat := 65

/-- The transient-failure test of the `except` block (lines 234-242):
`"rate limit reached"` in the lowercased message, or a `status_code`
attribute in `{429, 503, 500}`, or `"timeout"` / `"timed out"` /
`"read timed out"` in the lowercased message, or the provider overload
string `"负载已饱和"` in the raw message, or `"relay error"` in the
lowercased message. -/
def isTransient (e : InferError) : Bool :=
  let s := strLower e.message
  strContains s "rate limit reached"
  || (match e.statusCode with
      | some c => c == 429 || c == 503 || c == 500
      | none => false)
  || strContains s "timeout"
  || strContains s "timed out"
  || strContains s "read timed out"
  || strContains e.message "负载已饱和"
  || strContains s "relay error"

/-- The timeout test of line 252: `"timeout"` or `"timed out"` in the
lowercased message; a timeout retries immediately with no delay. -/
def isTimeout (e : InferError) : Bool :=
  strContains (strLower e.message) "timeout" || strContains (strLower e.message) "timed out"

/-- The content-filter test of line 295, on the raw (non-lowercased)
message: `"content_filter"` or `"content management policy"`. -/
def isContentFilter (e : InferError) : Bool :=
  strContains e.message "content_filter" || strContains e.message "content management policy"

/-- Lines 258-274: the scheduled sleep, in seconds, before the next
attempt after a rate-limit style transient failure, as a function of the
active-test count. -/
def dynamicDelay (activeCount : Nat) : Nat :=
  if activeCount ≤ 6 then
    if activeCount == 1 then 5
    else if activeCount == 2 then 10
    else if activeCount == 3 then 15
    else if activeCount == 4 then 20
    else if activeCount == 5 then 35
    else 45
  else RETRY_DELAY

/-- The per-job state the retry loop consults: the job identifier and the
optional `_get_active_count` callback, modelled by whether the key is
present and the count the callback would report. -/
structure Job where
  id : String
  hasGetActiveCount : Bool
  activeCountVal : Nat
  deriving DecidableEq, Repr

/-- Lines 203-206, `get_active_test_count`: the value of the callback when the
job dict carries `_get_active_count`, and the default `999` otherwise. -/
def getActiveTestCount (j : Job) : Nat :=
  if j.hasGetActiveCount then j.activeCountVal else 999

/-- The scheduled delay charged for one transient failure (lines 252-274):
zero for a timeout (`continue` with no sleep), `dynamicDelay` of the
active-test count otherwise. -/
def failureDelay (j : Job) (e : InferError) : Nat :=
  if isTimeout e then 0 else dynamicDelay (getActiveTestCount j)

/-- A value stored in a result dict. -/
inductive Val where
  | str (s : String)
  | nat (n : Nat)
  | pyNone
  deriving DecidableEq, Repr

/-- A Python dict with string keys, as an association list whose keys are
kept unique by construction. -/
abbrev Dict := List (String × Val)

/-- Drop every binding of key `k` (Python `del d[k]`, tolerant when the
key is absent). -/
def removeKey (k : String) : Dict → Dict
  | [] => []
  | p :: rest => if p.1 = k then removeKey k rest else p :: removeKey k rest

/-- Python assignment `d[k] = v`. -/
def setKey (k : String) (v : Val) (d : Dict) : Dict :=
  removeKey k d ++ [(k, v)]

/-- Python `d.update(md)`. -/
def dictUpdate (d md : Dict) : Dict :=
  md.foldl (fun acc p => setKey p.1 p.2 acc) d

/-- Python subscript `d[k]` as an optional value. -/
def lookupKey (k : String) : Dict → Option Val
  | [] => none
  | p :: rest => if p.1 = k then some p.2 else lookupKey k rest

/-- Python `k in d`. -/
def hasKey (k : String) (d : Dict) : Bool :=
  (lookupKey k d).isSome

/-- Lines 311-316: the error result returned for a fatal failure; the
`_error_type` field carries the content-filter tag or `None`. -/
def errorResult (j : Job) (e : InferError) (tb : String) : Dict :=
  [("id", Val.str j.id),
   ("result", Val.str ("Error during inference: " ++ e.message)),
   ("traceback", Val.str tb),
   ("_error_type", if isContentFilter e then Val.str "content_filter" else Val.pyNone)]

/-- Lines 318-327: the success result: identifier and payload, updated
with the handler metadata, plus `_rate_limit_count` when any rate-limit
retries occurred. -/
def successResult (j : Job) (payload : String) (metadata : Dict) (rlCount : Nat) : Dict :=
  let d := dictUpdate [("id", Val.str j.id), ("result", Val.str payload)] metadata
  if rlCount > 0 then setKey "_rate_limit_count" (Val.nat rlCount) d else d

/-- The outcome of one attempt at the `handler.inference` call: a success with
its payload and metadata, or a raised exception with its traceback text. -/
inductive Outcome where
  | success (payload : String) (metadata : Dict)
  | failure (e : InferError) (tb : String)
  deriving DecidableEq, Repr

/-- An outcome at which the `while True` loop of lines 208-316 stops
iterating: a success, or a failure classified fatal. -/
def isTerminal : Outcome → Bool
  | Outcome.success _ _ => true
  | Outcome.failure e _ => !isTransient e

/-- Whether a trace of attempt outcomes makes the loop terminate. -/
def containsTerminal (trace : List Outcome) : Bool :=
  trace.any isTerminal

/-- What one terminated run of `multi_threaded_inference` did: the single
result dict it returned, how many times `handler.inference` was invoked,
and the scheduled sleep before each retry, in attempt order. -/
structure RunOutput where
  result : Dict
  invocations : Nat
  delays : List Nat
  deriving DecidableEq, Repr

/-- The retry loop of `multi_threaded_inference` (lines 199-329), driven
by the trace of successive `handler.inference` outcomes; `rl` is the
running `rate_limit_count`. `none` means the trace was exhausted with the
loop still iterating (every listed outcome was transient). -/
def mtiRun (j : Job) : List Outcome → Nat → Option RunOutput
  | [], _ => none
  | Outcome.success payload md :: _, rl =>
      some ⟨successResult j payload md rl, 1, []⟩
  | Outcome.failure e tb :: rest, rl =>
      if isTransient e then
        match mtiRun j rest (rl + 1) with
        | some out => some ⟨out.result, out.invocations + 1, failureDelay j e :: out.delays⟩
        | none => none
      else
        some ⟨errorResult j e tb, 1, []⟩

/-- `multi_threaded_inference` on a job, given the outcome of each
successive `handler.inference` call. -/
def multiThreadedInference (j : Job) (trace : List Outcome) : Option RunOutput :=
  mtiRun j trace 0

/-- A test case as `collect_test_cases` sees it: a stable identifier and
an opaque payload. -/
structure TestCase where
  id : String
  payload : String
  deriving DecidableEq, Repr

/-- Modelled from the spec: `sort_key` is imported from `bfcl_eval.utils`,
whose source is not in the repository snapshot; the spec says only that
ordering is "a deterministic sort key over job identifiers", so the key
is modelled as the identifier itself. -/
def sortKey (t : TestCase) : String := t.id

/-- Lexicographic comparison of char lists, the order the modelled sort
key is compared by. -/
def charListLe : List Char → List Char → Bool
  | [], _ => true
  | _ :: _, [] => false
  | a :: as, b :: bs => if a = b then charListLe as bs else decide (a < b)

/-- The comparison `sorted(..., key=sort_key)` orders by. -/
def keyLe (a b : TestCase) : Prop :=
  charListLe (sortKey a).toList (sortKey b).toList = true

instance : DecidableRel keyLe := fun a b => by
  unfold keyLe; infer_instance

theorem charListLe_total : ∀ xs ys : List Char,
    charListLe xs ys = true ∨ charListLe ys xs = true := by
  intro xs
  induction xs with
  | nil => intro ys; left; rfl
  | cons a as ih =>
    intro ys
    cases ys with
    | nil => right; rfl
    | cons b bs =>
      by_cases hab : a = b
      · rcases ih bs with h | h
        · left; simp [charListLe, hab, h]
        · right; simp [charListLe, hab.symm, h]
      · rcases lt_or_gt_of_ne hab with h | h
        · left; simp [charListLe, hab, h]
        · right
          have hba : ¬(b = a) := fun hb => hab hb.symm
          simp [charListLe, hba, h]

theorem charListLe_trans : ∀ xs ys zs : List Char,
    charListLe xs ys = true → charListLe ys zs = true → charListLe xs zs = true := by
  intro xs
  induction xs with
  | nil => intro ys zs _ _; rfl
  | cons a as ih =>
    intro ys zs h1 h2
    cases ys with
    | nil => simp [charListLe] at h1
    | cons b bs =>
      cases zs with
      | nil => simp [charListLe] at h2
      | cons c cs =>
        by_cases hab : a = b <;> by_cases hbc : b = c
        · have hac : a = c := hab.trans hbc
          simp [charListLe, hab, hbc, hac] at h1 h2 ⊢
          exact ih bs cs h1 h2
        · have hbcLt : b < c := by
            simp [charListLe, hbc] at h2
            exact h2
          have hac : a < c := hab ▸ hbcLt
          have hacNe : ¬(a = c) := ne_of_lt hac
          simp [charListLe, hacNe, hac]
        · have habLt : a < b := by
            simp [charListLe, hab] at h1
            exact h1
          have hac : a < c := hbc ▸ habLt
          have hacNe : ¬(a = c) := ne_of_lt hac
          simp [charListLe, hacNe, hac]
        · have habLt : a < b := by
            simp [charListLe, hab] at h1
            exact h1
          have hbcLt : b < c := by
            simp [charListLe, hbc] at h2
            exact h2
          have hac : a < c := lt_trans habLt hbcLt
          have hacNe : ¬(a = c) := ne_of_lt hac
          simp [charListLe, hacNe, hac]

/-- Lines 144-157 of `collect_test_cases`: keep exactly the test cases
whose identifier is not among the already-persisted result identifiers,
then return them sorted by `sort_key`. (`process_multi_turn_test_case`
rewrites fields of some entries in place but adds or removes none and
leaves identifiers untouched, so it is identity at this granularity.) -/
def collectTestCases (entries : List TestCase) (existingIds : List String) : List TestCase :=
  List.insertionSort keyLe
    (entries.filter (fun t => !existingIds.contains t.id))

/-- What `main` (lines 641-646) does for one model after collecting the
pending cases. -/
inductive RunReport where
  | nothingToDo
  | ran (cases : List TestCase)
  deriving DecidableEq, Repr

/-- Lines 632-646 of `main` for one model: collect the pending cases and
either report that nothing is left to generate or run generation on them. -/
def mainForModel (entries : List TestCase) (existingIds : List String) : RunReport :=
  let cases := collectTestCases entries existingIds
  if cases.length = 0 then RunReport.nothingToDo else RunReport.ran cases

/-- The internal tracking fields deleted at lines 556-559 before
`handler.write`. -/
def internalFields : List String :=
  ["_rate_limit_count", "_increment_rate_limit", "_get_active_count",
   "_stall_event", "_processing_start_time"]

/-- Lines 549-559: delete `_error_type` when present, then delete each
internal tracking field that is present. -/
def stripInternal (r : Dict) : Dict :=
  internalFields.foldl (fun acc f => removeKey f acc) (removeKey "_error_type" r)

/-- The outcome of the result-processing loop of `generate_results`
(lines 525-586): either every completed result was persisted, or a
persistence failure aborted the whole run with `sys.exit(1)`, keeping
only the results written before the failure. -/
inductive RunOutcome where
  | completed (written : List Dict) (contentFilterCount : Nat)
  | aborted (exitCode : Nat) (written : List Dict)
  deriving DecidableEq, Repr

/-- One pass of the `for future in as_completed(futures)` body for a list
of completed results, in completion order: count the content-filter tag,
strip the internal fields, call `handler.write`; a write failure prints
the abort message and exits the process with status 1, with no retry of
the write and no further result processed. `writeOk` tells whether
`handler.write` succeeds on a given (already stripped) result. -/
def processResultsGo (writeOk : Dict → Bool) :
    List Dict → Nat → List Dict → RunOutcome
  | [], cf, written => RunOutcome.completed written.reverse cf
  | r :: rest, cf, written =>
      let cf' := if lookupKey "_error_type" r = some (Val.str "content_filter")
                 then cf + 1 else cf
      let r' := stripInternal r
      if writeOk r' then processResultsGo writeOk rest cf' (r' :: written)
      else RunOutcome.aborted 1 written.reverse

/-- The result-processing loop of `generate_results` over the stream of
completed job results. -/
def processResults (writeOk : Dict → Bool) (results : List Dict) : RunOutcome :=
  processResultsGo writeOk results 0 []

/-- Python `int()` on a rational: truncation toward zero. -/
def pyInt (q : ℚ) : Int :=
  if 0 ≤ q then ⌊q⌋ else -⌊-q⌋

/-- The per-function attributes the watchdog keeps between iterations:
`stall_watchdog.last_poke_time` (absent before the first poke),
`poke_count`, and `last_poke_timestamp`. -/
structure WatchdogState where
  lastPokeTime : Option Int
  pokeCount : Nat
  lastPokeTimestamp : Option ℚ
  deriving DecidableEq, Repr

/-- The fresh watchdog state at thread start: no attribute set yet. -/
def watchdogInit : WatchdogState :=
  ⟨none, 0, none⟩

/-- An observable action of one watchdog iteration, in program order. -/
inductive WAction where
  | setEvent
  | sleepFor (d : ℚ)
  | clearEvent
  deriving DecidableEq, Repr

/-- One iteration of the `stall_watchdog` body (lines 391-420) after its
1-second sleep: given the active-test count, the elapsed time since the
last completion, and the current clock, it pulses the stall event — set,
record the poke timestamp, sleep 0.5 s, clear — exactly when 1 ≤ active ≤ 8,
the elapsed time exceeds 10 s, its integer part is a multiple of 10, and
that integer part has not already been poked for. -/
def stallWatchdogStep (st : WatchdogState) (active : Nat) (timeSince now : ℚ) :
    WatchdogState × List WAction :=
  if 1 ≤ active ∧ active ≤ 8 then
    if timeSince > 10 then
      if pyInt timeSince % 10 = 0 then
        if st.lastPokeTime ≠ some (pyInt timeSince) then
          (⟨some (pyInt timeSince), st.pokeCount + 1, some now⟩,
           [WAction.setEvent, WAction.sleepFor (1 / 2), WAction.clearEvent])
        else (st, [])
      else (st, [])
    else (st, [])
  else (st, [])

/-! ## Helper lemmas on the dict operations -/

theorem lookupKey_removeKey (k k' : String) (d : Dict) :
    lookupKey k (removeKey k' d) = if k = k' then none else lookupKey k d := by
  induction d with
  | nil => simp [removeKey, lookupKey]
  | cons p rest ih =>
    by_cases h1 : p.1 = k'
    · rw [removeKey, if_pos h1, ih]
      by_cases h2 : k = k'
      · simp [h2]
      · have h3 : ¬(p.1 = k) := by
          rw [h1]; exact fun hb => h2 hb.symm
        simp [lookupKey, h2, h3]
    · rw [removeKey, if_neg h1]
      by_cases h3 : p.1 = k
      · have h2 : ¬(k = k') := fun hk => h1 (h3.trans hk)
        simp [lookupKey, h3, h2]
      · simp [lookupKey, h3, ih]

theorem lookupKey_append_none (k : String) (d₁ d₂ : Dict)
    (h : lookupKey k d₁ = none) : lookupKey k (d₁ ++ d₂) = lookupKey k d₂ := by
  induction d₁ with
  | nil => simp
  | cons p rest ih =>
    by_cases h1 : p.1 = k
    · simp [lookupKey, h1] at h
    · simp [lookupKey, h1] at h ⊢
      exact ih h

theorem lookupKey_append_some (k : String) (d₁ d₂ : Dict) (v : Val)
    (h : lookupKey k d₁ = some v) : lookupKey k (d₁ ++ d₂) = some v := by
  induction d₁ with
  | nil => simp [lookupKey] at h
  | cons p rest ih =>
    by_cases h1 : p.1 = k
    · simp [lookupKey, h1] at h ⊢
      exact h
    · simp [lookupKey, h1] at h ⊢
      exact ih h

theorem lookupKey_setKey_self (k : String) (v : Val) (d : Dict) :
    lookupKey k (setKey k v d) = some v := by
  unfold setKey
  rw [lookupKey_append_none]
  · simp [lookupKey]
  · simp [lookupKey_removeKey]

theorem lookupKey_setKey_ne (k k' : String) (v : Val) (d : Dict) (h : k' ≠ k) :
    lookupKey k (setKey k' v d) = lookupKey k d := by
  unfold setKey
  cases hv : lookupKey k d with
  | none =>
    rw [lookupKey_append_none]
    · simp [lookupKey, h]
    · rw [lookupKey_removeKey]
      simp [hv]
  | some v' =>
    apply lookupKey_append_some
    rw [lookupKey_removeKey]
    have hne : ¬(k = k') := fun hk => h hk.symm
    simp [hne, hv]

theorem lookupKey_dictUpdate_none (k : String) (md : Dict) :
    ∀ d : Dict, lookupKey k md = none → lookupKey k (dictUpdate d md) = lookupKey k d := by
  induction md with
  | nil => intro d _; simp [dictUpdate]
  | cons p rest ih =>
    intro d h
    by_cases h1 : p.1 = k
    · simp [lookupKey, h1] at h
    · simp [lookupKey, h1] at h
      have : dictUpdate d (p :: rest) = dictUpdate (setKey p.1 p.2 d) rest := by
        simp [dictUpdate]
      rw [this, ih _ h, lookupKey_setKey_ne _ _ _ _ h1]

/-! ## Helper lemmas on the retry loop -/

theorem successResult_id (j : Job) (payload : String) (md : Dict) (rl : Nat)
    (h : lookupKey "id" md = none) :
    lookupKey "id" (successResult j payload md rl) = some (Val.str j.id) := by
  unfold successResult
  have base : lookupKey "id" (dictUpdate [("id", Val.str j.id), ("result", Val.str payload)] md)
      = some (Val.str j.id) := by
    rw [lookupKey_dictUpdate_none _ _ _ h]
    simp [lookupKey]
  by_cases hrl : rl > 0
  · simp only [hrl, if_true]
    rw [lookupKey_setKey_ne _ _ _ _ (by decide)]
    exact base
  · simp only [hrl, if_false]
    exact base

theorem errorResult_id (j : Job) (e : InferError) (tb : String) :
    lookupKey "id" (errorResult j e tb) = some (Val.str j.id) := by
  simp [errorResult, lookupKey]

theorem mtiRun_id (j : Job) :
    ∀ (trace : List Outcome) (rl : Nat),
      (∀ p md, Outcome.success p md ∈ trace → lookupKey "id" md = none) →
      containsTerminal trace = true →
      ∃ out, mtiRun j trace rl = some out ∧
        lookupKey "id" out.result = some (Val.str j.id) := by
  intro trace
  induction trace with
  | nil => intro rl _ hterm; simp [containsTerminal] at hterm
  | cons o rest ih =>
    intro rl hmd hterm
    cases o with
    | success p md =>
      refine ⟨⟨successResult j p md rl, 1, []⟩, by simp [mtiRun], ?_⟩
      exact successResult_id j p md rl (hmd p md (List.mem_cons_self _ _))
    | failure e tb =>
      by_cases htr : isTransient e = true
      · have hterm' : containsTerminal rest = true := by
          simp [containsTerminal, isTerminal, htr] at hterm ⊢
          exact hterm
        obtain ⟨out, hout, hid⟩ := ih (rl + 1)
          (fun p md hm => hmd p md (List.mem_cons_of_mem _ hm)) hterm'
        exact ⟨⟨out.result, out.invocations + 1, failureDelay j e :: out.delays⟩,
          by simp [mtiRun, htr, hout], hid⟩
      · rw [Bool.not_eq_true] at htr
        refine ⟨⟨errorResult j e tb, 1, []⟩, ?_, errorResult_id j e tb⟩
        simp [mtiRun, htr]

/-! ## Claim theorems -/

/-- C1: whenever `multi_threaded_inference` terminates on a job — that is,
the trace of successive inference outcomes contains a success or a fatal
failure, and the opaque handler metadata carries no `id` binding of its
own — it returns exactly one result dict, whose `id` field equals the
identifier of the input job, both on success and on any error; no job
yields zero results and none yields two. -/
theorem exactly_one_result_per_job (j : Job) (trace : List Outcome)
    (hmd : ∀ p md, Outcome.success p md ∈ trace → lookupKey "id" md = none)
    (hterm : containsTerminal trace = true) :
    ∃ out, multiThreadedInference j trace = some out ∧
      lookupKey "id" out.result = some (Val.str j.id) ∧
      ∀ out2, multiThreadedInference j trace = some out2 → out2 = out := by
  obtain ⟨out, hout, hid⟩ := mtiRun_id j trace 0 hmd hterm
  refine ⟨out, hout, hid, fun out2 h2 => ?_⟩
  rw [multiThreadedInference, hout] at h2
  exact (Option.some_inj.mp h2).symm

/-- Closed instance of C1 at a concrete job and outcome trace. -/
theorem exactly_one_result_per_job_witness :
    ∃ out, multiThreadedInference ⟨"simple_0", true, 3⟩
        [Outcome.failure ⟨"rate limit reached", none⟩ "tb",
         Outcome.success "ok" []] = some out ∧
      lookupKey "id" out.result = some (Val.str "simple_0") ∧
      ∀ out2, multiThreadedInference ⟨"simple_0", true, 3⟩
        [Outcome.failure ⟨"rate limit reached", none⟩ "tb",
         Outcome.success "ok" []] = some out2 → out2 = out := by
  apply exactly_one_result_per_job
  · intro p md hm
    simp at hm
    rw [hm.2]
    rfl
  · decide

/-- The transient condition as the spec states it: HTTP status 429, 500
or 503, explicit rate-limit phrasing, any of the timeout phrasings, or
one of the known provider-specific overload strings. -/
def transientSpecConditions (e : InferError) : Prop :=
  e.statusCode = some 429 ∨ e.statusCode = some 500 ∨ e.statusCode = some 503 ∨
  strContains (strLower e.message) "rate limit reached" = true ∨
  strContains (strLower e.message) "timeout" = true ∨
  strContains (strLower e.message) "timed out" = true ∨
  strContains (strLower e.message) "read timed out" = true ∨
  strContains e.message "负载已饱和" = true ∨
  strContains (strLower e.message) "relay error" = true

/-- C2: a failure is classified transient (and retried) if and only if it
carries HTTP status 429, 500 or 503, or its message matches the
rate-limit, timeout, or provider-overload patterns; every other failure
is fatal, is not retried, and the job completes at once with an error
result rather than crashing the run. -/
theorem transient_classification (e : InferError) :
    (isTransient e = true ↔ transientSpecConditions e) ∧
    (isTransient e = false →
      ∀ (j : Job) (tb : String) (rest : List Outcome),
        multiThreadedInference j (Outcome.failure e tb :: rest) =
          some ⟨errorResult j e tb, 1, []⟩) := by
  constructor
  · unfold isTransient transientSpecConditions
    cases h : e.statusCode with
    | none => simp [h, Bool.or_eq_true]; tauto
    | some c => simp [h, Bool.or_eq_true]; tauto
  · intro hf j tb rest
    simp [multiThreadedInference, mtiRun, hf]

/-- Closed instance of C2 at a concrete fatal error. -/
theorem transient_classification_witness :
    isTransient ⟨"invalid JSON response", none⟩ = false ∧
    multiThreadedInference ⟨"simple_9", false, 0⟩
        [Outcome.failure ⟨"invalid JSON response", none⟩ "tb"] =
      some ⟨errorResult ⟨"simple_9", false, 0⟩ ⟨"invalid JSON response", none⟩ "tb", 1, []⟩ :=
  ⟨by decide,
   (transient_classification ⟨"invalid JSON response", none⟩).2 (by decide)
     ⟨"simple_9", false, 0⟩ "tb" []⟩

/-- C3: for a transient failure the scheduled delay before the next
attempt is 0 when the message contains timeout phrasing; otherwise it is
5, 10, 15, 20, 35 or 45 seconds for an active-test count of 1 through 6,
and the flat default of 65 seconds for a count of 7 or more; that
scheduled delay is exactly what the retry loop records before retrying. -/
theorem retry_delay_schedule (j : Job) (e : InferError) (h : isTransient e = true) :
    (isTimeout e = true → failureDelay j e = 0) ∧
    (isTimeout e = false →
      (getActiveTestCount j = 1 → failureDelay j e = 5) ∧
      (getActiveTestCount j = 2 → failureDelay j e = 10) ∧
      (getActiveTestCount j = 3 → failureDelay j e = 15) ∧
      (getActiveTestCount j = 4 → failureDelay j e = 20) ∧
      (getActiveTestCount j = 5 → failureDelay j e = 35) ∧
      (getActiveTestCount j = 6 → failureDelay j e = 45) ∧
      (7 ≤ getActiveTestCount j → failureDelay j e = 65)) ∧
    (∀ (tb : String) (rest : List Outcome) (out : RunOutput),
      multiThreadedInference j (Outcome.failure e tb :: rest) = some out →
      out.delays.head? = some (failureDelay j e)) := by
  refine ⟨?_, ?_, ?_⟩
  · intro ht
    simp [failureDelay, ht]
  · intro ht
    have hd : failureDelay j e = dynamicDelay (getActiveTestCount j) := by
      simp [failureDelay, ht]
    refine ⟨?_, ?_, ?_, ?_, ?_, ?_, ?_⟩
    case refine_7 =>
      intro hc
      have h6 : ¬(getActiveTestCount j ≤ 6) := by omega
      simp [hd, dynamicDelay, h6, RETRY_DELAY]
    all_goals intro hc; rw [hd, hc]; decide
  · intro tb rest out hout
    simp only [multiThreadedInference, mtiRun, h, if_true, Nat.zero_add] at hout
    cases hrest : mtiRun j rest 1 with
    | none => rw [hrest] at hout; simp at hout
    | some out2 =>
      rw [hrest] at hout
      rw [← Option.some_inj.mp hout]
      simp

/-- Closed instance of C3: a rate-limit failure with three tests still
active waits 15 seconds, and the loop records exactly that delay. -/
theorem retry_delay_schedule_witness :
    failureDelay ⟨"simple_2", true, 3⟩ ⟨"rate limit reached", none⟩ = 15 ∧
    isTransient ⟨"rate limit reached", none⟩ = true :=
  ⟨(((retry_delay_schedule ⟨"simple_2", true, 3⟩ ⟨"rate limit reached", none⟩
      (by decide)).2.1 (by decide)).2.2.1) (by decide),
   by decide⟩

theorem mtiRun_transient_then_success (j : Job) (p : String) (md : Dict) :
    ∀ (failures : List Outcome) (rl : Nat), (∀ o ∈ failures, isTerminal o = false) →
      ∃ out, mtiRun j (failures ++ [Outcome.success p md]) rl = some out ∧
        out.invocations = failures.length + 1 ∧
        out.result = successResult j p md (rl + failures.length) := by
  intro failures
  induction failures with
  | nil =>
    intro rl _
    exact ⟨⟨successResult j p md rl, 1, []⟩, by simp [mtiRun], rfl, by simp⟩
  | cons o rest ih =>
    intro rl hall
    cases o with
    | success q qmd =>
      have := hall _ (List.mem_cons_self _ _)
      simp [isTerminal] at this
    | failure e tb =>
      have htr : isTransient e = true := by
        have := hall _ (List.mem_cons_self _ _)
        simpa [isTerminal] using this
      obtain ⟨out, hout, hinv, hres⟩ :=
        ih (rl + 1) (fun o ho => hall o (List.mem_cons_of_mem _ ho))
      refine ⟨⟨out.result, out.invocations + 1, failureDelay j e :: out.delays⟩, ?_, ?_, ?_⟩
      · simp [mtiRun, htr, hout]
      · simp [hinv]
      · have harith : rl + 1 + rest.length = rl + (rest.length + 1) := by omega
        simpa [harith] using hres

/-- C4: the Inference Client is invoked once plus the number of transient
failures: transient failures are retried with no maximum count — the
`RETRY_LIMIT` constant is never consulted, and for any number of
consecutive transient failures followed by a success, the success result
is returned — while a fatal failure is retried zero times: the client is
invoked exactly once and the error result is produced immediately. -/
theorem retry_unlimited_fatal_once (j : Job) :
    RETRY_LIMIT = 3 ∧
    (∀ (failures : List Outcome) (p : String) (md : Dict),
      (∀ o ∈ failures, isTerminal o = false) →
      ∃ out, multiThreadedInference j (failures ++ [Outcome.success p md]) = some out ∧
        out.invocations = failures.length + 1 ∧
        out.result = successResult j p md failures.length) ∧
    (∀ (e : InferError) (tb : String) (rest : List Outcome), isTransient e = false →
      multiThreadedInference j (Outcome.failure e tb :: rest) =
        some ⟨errorResult j e tb, 1, []⟩) := by
  refine ⟨rfl, ?_, ?_⟩
  · intro failures p md hall
    have h := mtiRun_transient_then_success j p md failures 0 hall
    simpa [multiThreadedInference] using h
  · intro e tb rest hf
    simp [multiThreadedInference, mtiRun, hf]

/-- Closed instance of C4: five consecutive transient failures — more
than `RETRY_LIMIT` — then a success still returns the success result
after six invocations, while a fatal failure is invoked exactly once. -/
theorem retry_unlimited_fatal_once_witness :
    (∃ out, multiThreadedInference ⟨"simple_1", true, 9⟩
        (List.replicate 5 (Outcome.failure ⟨"rate limit reached", none⟩ "tb") ++
          [Outcome.success "ok" []]) = some out ∧
      out.invocations = 5 + 1 ∧
      out.result = successResult ⟨"simple_1", true, 9⟩ "ok" [] 5) ∧
    multiThreadedInference ⟨"simple_1", true, 9⟩
        [Outcome.failure ⟨"invalid json", none⟩ "t"] =
      some ⟨errorResult ⟨"simple_1", true, 9⟩ ⟨"invalid json", none⟩ "t", 1, []⟩ := by
  constructor
  · have h := (retry_unlimited_fatal_once ⟨"simple_1", true, 9⟩).2.1
      (List.replicate 5 (Outcome.failure ⟨"rate limit reached", none⟩ "tb")) "ok" []
      (by
        intro o ho
        simp [List.mem_replicate] at ho
        rw [ho]
        decide)
    simpa using h
  · exact (retry_unlimited_fatal_once ⟨"simple_1", true, 9⟩).2.2
      ⟨"invalid json", none⟩ "t" [] (by decide)

/-- C5: `collect_test_cases` returns exactly the test cases whose
identifiers do not appear among the already-persisted result identifiers,
sorted by the deterministic key over identifiers, so re-submission order
is stable; no already-completed identifier is ever re-submitted, and when
every case is already complete the caller reports nothing to do instead
of erroring. -/
theorem collect_pending_sorted (entries : List TestCase) (existingIds : List String) :
    (collectTestCases entries existingIds).Perm
      (entries.filter (fun t => !existingIds.contains t.id)) ∧
    List.Sorted keyLe (collectTestCases entries existingIds) ∧
    (∀ t ∈ collectTestCases entries existingIds, t.id ∉ existingIds) ∧
    ((∀ t ∈ entries, t.id ∈ existingIds) →
      mainForModel entries existingIds = RunReport.nothingToDo) := by
  have hperm : (collectTestCases entries existingIds).Perm
      (entries.filter (fun t => !existingIds.contains t.id)) :=
    List.perm_insertionSort keyLe _
  refine ⟨hperm, ?_, ?_, ?_⟩
  · haveI : IsTotal TestCase keyLe :=
      ⟨fun a b => charListLe_total (sortKey a).toList (sortKey b).toList⟩
    haveI : IsTrans TestCase keyLe :=
      ⟨fun a b c hab hbc => charListLe_trans _ _ _ hab hbc⟩
    exact List.sorted_insertionSort keyLe _
  · intro t ht
    have hmem := hperm.mem_iff.mp ht
    have := (List.mem_filter.mp hmem).2
    simpa using this
  · intro hall
    have hnil : entries.filter (fun t => !existingIds.contains t.id) = [] := by
      rw [List.filter_eq_nil_iff]
      intro t ht
      simpa using hall t ht
    have hlen : (collectTestCases entries existingIds).length = 0 := by
      rw [hperm.length_eq, hnil]
      rfl
    simp [mainForModel, hlen]

/-- Closed instance of C5: with one of three cases already persisted, the
two pending cases come back in key order, and a fully-persisted set
reports nothing to do. -/
theorem collect_pending_sorted_witness :
    collectTestCases [⟨"b", "p"⟩, ⟨"a", "q"⟩, ⟨"c", "r"⟩] ["c"] = [⟨"a", "q"⟩, ⟨"b", "p"⟩] ∧
    (∀ t ∈ collectTestCases [⟨"b", "p"⟩, ⟨"a", "q"⟩, ⟨"c", "r"⟩] ["c"], t.id ∉ ["c"]) ∧
    mainForModel [⟨"a", "q"⟩] ["a"] = RunReport.nothingToDo :=
  ⟨by decide,
   (collect_pending_sorted [⟨"b", "p"⟩, ⟨"a", "q"⟩, ⟨"c", "r"⟩] ["c"]).2.2.1,
   (collect_pending_sorted [⟨"a", "q"⟩] ["a"]).2.2.2 (by decide)⟩

/-- The list of results a run outcome has durably written. -/
def writtenOf : RunOutcome → List Dict
  | RunOutcome.completed w _ => w
  | RunOutcome.aborted _ w => w

theorem processResultsGo_all_ok (writeOk : Dict → Bool) :
    ∀ (rs : List Dict) (cf : Nat) (acc : List Dict),
      (∀ q ∈ rs, writeOk (stripInternal q) = true) →
      ∃ cfOut, processResultsGo writeOk rs cf acc =
        RunOutcome.completed (acc.reverse ++ rs.map stripInternal) cfOut := by
  intro rs
  induction rs with
  | nil => intro cf acc _; exact ⟨cf, by simp [processResultsGo]⟩
  | cons r rest ih =>
    intro cf acc hall
    have hr : writeOk (stripInternal r) = true := hall r (List.mem_cons_self _ _)
    obtain ⟨cfOut, hout⟩ := ih
      (if lookupKey "_error_type" r = some (Val.str "content_filter") then cf + 1 else cf)
      (stripInternal r :: acc)
      (fun q hq => hall q (List.mem_cons_of_mem _ hq))
    refine ⟨cfOut, ?_⟩
    simp only [processResultsGo, hr, if_true]
    rw [hout]
    simp

theorem processResultsGo_abort (writeOk : Dict → Bool) :
    ∀ (prior : List Dict) (r : Dict) (rest : List Dict) (cf : Nat) (acc : List Dict),
      writeOk (stripInternal r) = false →
      (∀ q ∈ prior, writeOk (stripInternal q) = true) →
      processResultsGo writeOk (prior ++ r :: rest) cf acc =
        RunOutcome.aborted 1 (acc.reverse ++ prior.map stripInternal) := by
  intro prior
  induction prior with
  | nil =>
    intro r rest cf acc hfail _
    simp [processResultsGo, hfail]
  | cons q qs ih =>
    intro r rest cf acc hfail hall
    have hq : writeOk (stripInternal q) = true := hall q (List.mem_cons_self _ _)
    simp only [List.cons_append, processResultsGo, hq, if_true]
    rw [List.append_eq,
      ih r rest _ _ hfail (fun x hx => hall x (List.mem_cons_of_mem _ hx))]
    simp

/-- C6: if persisting a completed result fails, the entire run aborts at
once: the failing write is not retried, no later result is processed, and
the process exits with status 1; and this is the only terminating error
condition — when every write succeeds the run completes, error results
included, with one stripped result persisted per completed job. -/
theorem sink_write_failure_aborts (writeOk : Dict → Bool) :
    (∀ (prior : List Dict) (r : Dict) (rest : List Dict),
      writeOk (stripInternal r) = false →
      (∀ q ∈ prior, writeOk (stripInternal q) = true) →
      processResults writeOk (prior ++ r :: rest) =
        RunOutcome.aborted 1 (prior.map stripInternal)) ∧
    (∀ results : List Dict,
      (∀ q ∈ results, writeOk (stripInternal q) = true) →
      ∃ cf, processResults writeOk results =
        RunOutcome.completed (results.map stripInternal) cf) := by
  constructor
  · intro prior r rest hfail hprior
    have h := processResultsGo_abort writeOk prior r rest 0 [] hfail hprior
    simpa [processResults] using h
  · intro results hall
    obtain ⟨cf, h⟩ := processResultsGo_all_ok writeOk results 0 [] hall
    exact ⟨cf, by simpa [processResults] using h⟩

/-- Closed instance of C6: a sink that always fails aborts on the first
result with exit status 1 and nothing persisted; a sink that always
succeeds completes the run. -/
theorem sink_write_failure_aborts_witness :
    processResults (fun _ => false) [[("id", Val.str "simple_3")]] =
      RunOutcome.aborted 1 [] ∧
    ∃ cf, processResults (fun _ => true) [[("id", Val.str "simple_3")]] =
      RunOutcome.completed [stripInternal [("id", Val.str "simple_3")]] cf := by
  constructor
  · have h := (sink_write_failure_aborts (fun _ => false)).1
      [] [("id", Val.str "simple_3")] [] rfl (by intro q hq; simp at hq)
    simpa using h
  · have h := (sink_write_failure_aborts (fun _ => true)).2
      [[("id", Val.str "simple_3")]] (by intro q hq; rfl)
    simpa using h

theorem lookupKey_stripInternal (r : Dict) (f : String)
    (hf : f ∈ "_error_type" :: internalFields) :
    lookupKey f (stripInternal r) = none := by
  have hs : stripInternal r =
      removeKey "_processing_start_time" (removeKey "_stall_event"
        (removeKey "_get_active_count" (removeKey "_increment_rate_limit"
          (removeKey "_rate_limit_count" (removeKey "_error_type" r))))) := by
    simp [stripInternal, internalFields]
  rw [hs]
  simp only [internalFields, List.mem_cons, List.mem_singleton, List.not_mem_nil, or_false] at hf
  rcases hf with h | h | h | h | h | h <;> subst h <;> simp [lookupKey_removeKey]

theorem processResultsGo_written_clean (writeOk : Dict → Bool) (P : Dict → Prop)
    (hP : ∀ r, P (stripInternal r)) :
    ∀ (rs : List Dict) (cf : Nat) (acc : List Dict),
      (∀ x ∈ acc, P x) →
      ∀ x ∈ writtenOf (processResultsGo writeOk rs cf acc), P x := by
  intro rs
  induction rs with
  | nil =>
    intro cf acc hacc x hx
    simp [processResultsGo, writtenOf] at hx
    exact hacc x hx
  | cons r rest ih =>
    intro cf acc hacc x hx
    by_cases hw : writeOk (stripInternal r) = true
    · simp only [processResultsGo, hw, if_true] at hx
      refine ih _ _ (fun y hy => ?_) x hx
      rcases List.mem_cons.mp hy with h | h
      · rw [h]; exact hP r
      · exact hacc y h
    · rw [Bool.not_eq_true] at hw
      simp only [processResultsGo, hw, Bool.false_eq_true, if_false, writtenOf] at hx
      simp at hx
      exact hacc x hx

/-- C7: every result passed to `handler.write` has had all the transient
tracking fields removed — whatever outcome the run has, no persisted
result contains `_error_type`, `_rate_limit_count`,
`_increment_rate_limit`, `_get_active_count`, `_stall_event` or
`_processing_start_time` — even though the in-memory success result of
`multi_threaded_inference` carries `_rate_limit_count` whenever
rate-limit retries occurred. -/
theorem internal_fields_never_persisted :
    (∀ (r : Dict) (f : String), f ∈ "_error_type" :: internalFields →
      lookupKey f (stripInternal r) = none) ∧
    (∀ (writeOk : Dict → Bool) (results : List Dict) (x : Dict),
      x ∈ writtenOf (processResults writeOk results) →
      ∀ f ∈ "_error_type" :: internalFields, lookupKey f x = none) ∧
    (∀ (j : Job) (p : String) (md : Dict) (rl : Nat), 0 < rl →
      lookupKey "_rate_limit_count" (successResult j p md rl) = some (Val.nat rl)) := by
  refine ⟨fun r f hf => lookupKey_stripInternal r f hf, ?_, ?_⟩
  · intro writeOk results x hx f hf
    exact processResultsGo_written_clean writeOk
      (fun d => lookupKey f d = none)
      (fun r => lookupKey_stripInternal r f hf)
      results 0 [] (by intro y hy; simp at hy) x hx
  · intro j p md rl hrl
    simp only [successResult, hrl, if_true]
    exact lookupKey_setKey_self _ _ _

/-- Closed instance of C7 at a concrete result carrying every tracking
field, and a concrete success result with two rate-limit retries. -/
theorem internal_fields_never_persisted_witness :
    lookupKey "_stall_event"
      (stripInternal [("id", Val.str "simple_4"), ("_stall_event", Val.pyNone),
        ("_rate_limit_count", Val.nat 2), ("_error_type", Val.pyNone)]) = none ∧
    lookupKey "_rate_limit_count" (successResult ⟨"simple_4", true, 1⟩ "ok" [] 2) =
      some (Val.nat 2) := by
  constructor
  · exact internal_fields_never_persisted.1
      [("id", Val.str "simple_4"), ("_stall_event", Val.pyNone),
        ("_rate_limit_count", Val.nat 2), ("_error_type", Val.pyNone)]
      "_stall_event" (by simp [internalFields])
  · exact internal_fields_never_persisted.2.2 ⟨"simple_4", true, 1⟩ "ok" [] 2 (by decide)

/-- C8: the watchdog sets the stall signal only when between 1 and 8 jobs
are in flight, more than 10 seconds have elapsed since the last
completion, the integer part of the elapsed idle time is on a 10-second
boundary, and it has not already signaled for that boundary; and when it
does, the pulse is exactly set, sleep 0.5 s, clear, with the boundary and
the pulse timestamp recorded. -/
theorem stall_watchdog_pulse (st : WatchdogState) (active : Nat) (timeSince now : ℚ) :
    ((stallWatchdogStep st active timeSince now).2 ≠ [] ↔
      (1 ≤ active ∧ active ≤ 8 ∧ timeSince > 10 ∧ pyInt timeSince % 10 = 0 ∧
        st.lastPokeTime ≠ some (pyInt timeSince))) ∧
    ((1 ≤ active ∧ active ≤ 8 ∧ timeSince > 10 ∧ pyInt timeSince % 10 = 0 ∧
        st.lastPokeTime ≠ some (pyInt timeSince)) →
      stallWatchdogStep st active timeSince now =
        (⟨some (pyInt timeSince), st.pokeCount + 1, some now⟩,
         [WAction.setEvent, WAction.sleepFor (1 / 2), WAction.clearEvent])) := by
  unfold stallWatchdogStep
  constructor
  · by_cases h1 : 1 ≤ active ∧ active ≤ 8
    · by_cases h2 : timeSince > 10
      · by_cases h3 : pyInt timeSince % 10 = 0
        · by_cases h4 : st.lastPokeTime = some (pyInt timeSince)
          · rw [if_pos h1, if_pos h2, if_pos h3, if_neg (not_not_intro h4)]
            constructor
            · intro hx; exact absurd rfl hx
            · rintro ⟨-, -, -, -, hE⟩; exact (hE h4).elim
          · rw [if_pos h1, if_pos h2, if_pos h3, if_pos h4]
            constructor
            · intro _; exact ⟨h1.1, h1.2, h2, h3, h4⟩
            · intro _; exact List.cons_ne_nil _ _
        · rw [if_pos h1, if_pos h2, if_neg h3]
          constructor
          · intro hx; exact absurd rfl hx
          · rintro ⟨-, -, -, hD, -⟩; exact (h3 hD).elim
      · rw [if_pos h1, if_neg h2]
        constructor
        · intro hx; exact absurd rfl hx
        · rintro ⟨-, -, hC, -⟩; exact (h2 hC).elim
    · rw [if_neg h1]
      constructor
      · intro hx; exact absurd rfl hx
      · rintro ⟨hA, hB, -⟩; exact (h1 ⟨hA, hB⟩).elim
  · intro hc
    obtain ⟨hA, hB, hC, hD, hE⟩ := hc
    rw [if_pos ⟨hA, hB⟩, if_pos hC, if_pos hD, if_pos hE]

/-- Closed instance of C8: with 3 jobs in flight, 10.5 seconds idle and
no prior poke, the watchdog pulses set / sleep 0.5 / clear and records
boundary 10 and the pulse time. -/
theorem stall_watchdog_pulse_witness :
    stallWatchdogStep watchdogInit 3 (21 / 2) 100 =
      (⟨some 10, 1, some 100⟩,
       [WAction.setEvent, WAction.sleepFor (1 / 2), WAction.clearEvent]) := by
  have hfloor : pyInt (21 / 2 : ℚ) = 10 := by
    rw [pyInt, if_pos (by norm_num : (0 : ℚ) ≤ 21 / 2)]
    rw [Int.floor_eq_iff]
    norm_num
  have h := (stall_watchdog_pulse watchdogInit 3 (21 / 2) 100).2
    ⟨by norm_num, by norm_num, by norm_num,
     by rw [hfloor]; decide, by rw [hfloor]; simp [watchdogInit]⟩
  rw [h, hfloor]
  rfl

/-- C9 as stated fails on the code: a message that indicates a
content-policy rejection but also contains timeout phrasing is classified
transient, so the job is retried — here the Inference Client is invoked
three times and a success result, not a tagged error result, is
produced. -/
theorem content_filter_retried_counterexample :
    isContentFilter ⟨"content management policy timeout", none⟩ = true ∧
    isTransient ⟨"content management policy timeout", none⟩ = true ∧
    multiThreadedInference ⟨"simple_5", true, 2⟩
        [Outcome.failure ⟨"content management policy timeout", none⟩ "tb",
         Outcome.failure ⟨"content management policy timeout", none⟩ "tb",
         Outcome.success "ok" []] =
      some ⟨successResult ⟨"simple_5", true, 2⟩ "ok" [] 2, 3, [0, 0]⟩ := by
  refine ⟨by decide, by decide, ?_⟩
  decide

/-- C9 amended: an error whose message indicates a content-policy
rejection and matches no transient pattern is fatal to the job and never
retried — the Inference Client is invoked exactly once — producing one
error result carrying the `content_filter` tag; the tag increments the
content-filter counter during result processing and is removed before
the result is persisted. -/
theorem content_filter_fatal (j : Job) (e : InferError) (tb : String)
    (hcf : isContentFilter e = true) (hnt : isTransient e = false) :
    (∀ rest : List Outcome,
      multiThreadedInference j (Outcome.failure e tb :: rest) =
        some ⟨errorResult j e tb, 1, []⟩) ∧
    lookupKey "_error_type" (errorResult j e tb) = some (Val.str "content_filter") ∧
    (∀ writeOk : Dict → Bool, writeOk (stripInternal (errorResult j e tb)) = true →
      processResults writeOk [errorResult j e tb] =
        RunOutcome.completed [stripInternal (errorResult j e tb)] 1) ∧
    lookupKey "_error_type" (stripInternal (errorResult j e tb)) = none := by
  have hl : lookupKey "_error_type" (errorResult j e tb) = some (Val.str "content_filter") := by
    simp [errorResult, lookupKey, hcf]
  refine ⟨?_, hl, ?_, ?_⟩
  · intro rest
    simp [multiThreadedInference, mtiRun, hnt]
  · intro writeOk hw
    simp [processResults, processResultsGo, hl, hw]
  · exact lookupKey_stripInternal _ _ (by simp)

/-- Closed instance of the amended C9 at a concrete content-filter
error. -/
theorem content_filter_fatal_witness :
    multiThreadedInference ⟨"simple_6", true, 1⟩
        [Outcome.failure ⟨"content_filter", none⟩ "tb"] =
      some ⟨errorResult ⟨"simple_6", true, 1⟩ ⟨"content_filter", none⟩ "tb", 1, []⟩ ∧
    processResults (fun _ => true)
        [errorResult ⟨"simple_6", true, 1⟩ ⟨"content_filter", none⟩ "tb"] =
      RunOutcome.completed
        [stripInternal (errorResult ⟨"simple_6", true, 1⟩ ⟨"content_filter", none⟩ "tb")] 1 :=
  ⟨(content_filter_fatal ⟨"simple_6", true, 1⟩ ⟨"content_filter", none⟩ "tb"
      (by decide) (by decide)).1 [],
   (content_filter_fatal ⟨"simple_6", true, 1⟩ ⟨"content_filter", none⟩ "tb"
      (by decide) (by decide)).2.2.1 (fun _ => true) rfl⟩

/-- C10: a job dict without the `_get_active_count` callback reports 999
active tests, so every rate-limit backoff for it waits the flat default
delay of 65 seconds and never one of the shorter per-count table
delays. -/
theorem no_callback_default_delay (j : Job) (e : InferError)
    (hj : j.hasGetActiveCount = false) (htr : isTransient e = true)
    (hto : isTimeout e = false) :
    getActiveTestCount j = 999 ∧
    failureDelay j e = RETRY_DELAY ∧
    RETRY_DELAY = 65 ∧
    failureDelay j e ∉ [5, 10, 15, 20, 35, 45] := by
  have h999 : getActiveTestCount j = 999 := by simp [getActiveTestCount, hj]
  have hfd : failureDelay j e = 65 := by
    have hstep : failureDelay j e = dynamicDelay (getActiveTestCount j) := by
      simp [failureDelay, hto]
    rw [hstep, h999]
    decide
  exact ⟨h999, by rw [hfd]; rfl, rfl, by rw [hfd]; decide⟩

/-- Closed instance of C10: without the callback the active count is 999
and a rate-limit failure waits the default 65 seconds. -/
theorem no_callback_default_delay_witness :
    getActiveTestCount ⟨"simple_7", false, 3⟩ = 999 ∧
    failureDelay ⟨"simple_7", false, 3⟩ ⟨"rate limit reached", none⟩ = RETRY_DELAY := by
  have h := no_callback_default_delay ⟨"simple_7", false, 3⟩ ⟨"rate limit reached", none⟩
    rfl (by decide) (by decide)
  exact ⟨h.1, h.2.1⟩

end Dispatch
